import Mathlib

/-!
Verification of the NSE corporate-events sync pipeline (src/main.py) against its
natural-language specification.  The Python source is shallowly embedded below:
pure text manipulation becomes functions on `String` / `List Char`, the fuzzy
matcher becomes a rational-valued score, network effects (the PDF download) are
abstracted into an `Option String` argument holding the fetched text, and the
wall clock at composition time is an explicit parameter.  Regular-expression
searches from the source are embedded as deterministic matchers that follow the
leftmost / greedy-with-backtracking semantics of Python `re` for the concrete
patterns appearing in the source (the relevant character classes are disjoint,
so the backtracking behaviour is fully determined and spelled out at each
definition).  Characters are treated at ASCII granularity, matching the data
the pipeline processes.
-/

namespace NseSync

/-! ## Character helpers (ASCII view) -/

/-- Lowercasing of a single ASCII character, modelling Python `str.lower` on the
ASCII range (all characters the pipeline compares are ASCII). -/
def lowerAscii (c : Char) : Char :=
  if 65 ≤ c.toNat ∧ c.toNat ≤ 90 then Char.ofNat (c.toNat + 32) else c

/-- ASCII letter or digit, the class `[a-zA-Z0-9]` from `normalize`. -/
def isAsciiAlnum (c : Char) : Bool :=
  decide ((48 ≤ c.toNat ∧ c.toNat ≤ 57) ∨ (65 ≤ c.toNat ∧ c.toNat ≤ 90) ∨
    (97 ≤ c.toNat ∧ c.toNat ≤ 122))

/-- ASCII letter, the class `[A-Za-z]`. -/
def isAsciiAlpha (c : Char) : Bool :=
  decide ((65 ≤ c.toNat ∧ c.toNat ≤ 90) ∨ (97 ≤ c.toNat ∧ c.toNat ≤ 122))

/-- ASCII whitespace, the regex class `\s` (space, tab, LF, VT, FF, CR). -/
def isWsA (c : Char) : Bool :=
  decide (c.toNat = 32 ∨ (9 ≤ c.toNat ∧ c.toNat ≤ 13))

/-- ASCII digit, the regex class `\d` / `[0-9]`. -/
def isDigitA (c : Char) : Bool :=
  decide (48 ≤ c.toNat ∧ c.toNat ≤ 57)

/-- Numeric value of an ASCII digit character. -/
def digitVal (c : Char) : Nat := c.toNat - 48

/-! ## Text Normalizer (src/main.py `normalize`, line 22-23)

`re.sub(r'[^a-zA-Z0-9]', '', text or '').lower()`: drop every character that is
not an ASCII letter or digit, then lowercase.  `text or ''` treats an absent
(`None`) input as the empty string, which the `Option String` argument models. -/

def normalize (text : Option String) : String :=
  ⟨((text.getD ("")).data.filter isAsciiAlnum).map lowerAscii⟩

/-- Python substring test `needle in hay` on the character-list view. -/
def containsSub (hay needle : List Char) : Bool :=
  hay.tails.any (fun t => needle.isPrefixOf t)

/-- Case-insensitive substring test (used for `re.IGNORECASE` literal content;
the needle is given in lowercase). -/
def containsCI (hay needle : List Char) : Bool :=
  containsSub (hay.map lowerAscii) needle

/-! ## Fuzzy partial-ratio similarity (rapidfuzz `fuzz.partial_ratio`)

`fuzz.ratio` is the normalized indel similarity scaled to 0-100:
`100 * 2 * lcs(a,b) / (|a| + |b|)` (with the two-empty-strings case defined as
100).  `fuzz.partial_ratio` slides the shorter string over every window of the
longer string of the shorter string's length and takes the best `ratio`.
Scores are modelled as rationals. -/

def lcsLen : List Char → List Char → Nat
  | [], _ => 0
  | _ :: _, [] => 0
  | a :: as, b :: bs =>
    if a = b then lcsLen as bs + 1
    else max (lcsLen (a :: as) bs) (lcsLen as (b :: bs))
termination_by a b => a.length + b.length
decreasing_by
  all_goals (simp only [List.length_cons]; omega)

/-- rapidfuzz `fuzz.ratio` on character lists (score in 0-100, as a rational). -/
def ratioOf (a b : List Char) : ℚ :=
  if a.length + b.length = 0 then 100
  else (200 * lcsLen a b : ℚ) / (a.length + b.length)

/-- rapidfuzz `fuzz.partial_ratio`: best `ratioOf` of the shorter string
against every window of the longer string of the shorter one's length. -/
def partRatioOf (s1 s2 : List Char) : ℚ :=
  let p := if s1.length ≤ s2.length then (s1, s2) else (s2, s1)
  ((List.range (p.2.length - p.1.length + 1)).map
    (fun i => ratioOf p.1 ((p.2.drop i).take p.1.length))).foldr max 0

/-! ## Matcher (src/main.py `filter_entries`, lines 68-95) -/

/-- Global fuzzy-match threshold from src/main.py line 18. -/
def FUZZY_THRESHOLD : ℚ := 98

/-- A feed entry as the matcher sees it: `entry.title` may be absent
(`hasattr(entry, 'title')` guard), `entry.get('summary', '')` and
`entry.get('link', '')` default to the empty string. -/
structure Entry where
  title : Option String
  summary : Option String
  link : Option String
deriving DecidableEq, Repr

/-- The fixed keyword allow-list from `filter_entries` (src/main.py 70-74). -/
def allowed_keywords : List String :=
  ["analyst", "analysts", "institutional", "investor",
   "concall", "conference call", "conferencecall",
   "meet", "call", "meetconcall", "meet/concall"]

/-- `allowed_keywords_norm = [normalize(k) for k in allowed_keywords]`. -/
def allowed_keywords_norm : List String :=
  allowed_keywords.map (fun k => normalize (some k))

/-- `content = title + " " + summary` where both parts are normalized
(src/main.py 80-82). -/
def entryContent (e : Entry) : String :=
  normalize e.title ++ " " ++ normalize e.summary

/-- `key_hit = any(k in content for k in allowed_keywords_norm)`
(src/main.py line 86): the keyword gate, evaluated on title plus summary. -/
def key_hit (e : Entry) : Bool :=
  allowed_keywords_norm.any (fun k => containsSub (entryContent e).data k.data)

/-- `score = fuzz.partial_ratio(normalize(company), title)` (src/main.py
line 85): the similarity is computed against the normalized title only. -/
def companyScore (company : String) (e : Entry) : ℚ :=
  partRatioOf (normalize (some company)).data (normalize e.title).data

/-- The per-(entry, company) decision `score >= FUZZY_THRESHOLD and key_hit`
(src/main.py line 87), with the threshold as a parameter. -/
def companyMatch (th : ℚ) (company : String) (e : Entry) : Bool :=
  decide (th ≤ companyScore company e) && key_hit e

/-- `filter_entries` with the threshold explicit.  The inner `for company`
loop appends the entry and `break`s on the first matching company, which is
exactly a short-circuit `List.any` guarding a single `filter` occurrence. -/
def filter_entriesT (th : ℚ) (entries : List Entry) (companies : List String) :
    List Entry :=
  entries.filter (fun e => companies.any (fun c => companyMatch th c e))

/-- `filter_entries` as in the source, at the global threshold 98. -/
def filter_entries (entries : List Entry) (companies : List String) :
    List Entry :=
  filter_entriesT FUZZY_THRESHOLD entries companies

/-! ## String utilities for the extractor -/

/-- Python `str.strip()` on the character-list view: drop leading and trailing
whitespace. -/
def stripL (l : List Char) : List Char :=
  ((l.dropWhile isWsA).reverse.dropWhile isWsA).reverse

/-- Python `str.strip()`. -/
def pyStrip (s : String) : String := ⟨stripL s.data⟩

/-- `re.sub(r'\s+', ' ', text)` (src/main.py line 145): collapse every
whitespace run to one space.  Implemented with a fuel argument equal to the
input length, which every recursive call respects (`dropWhile` never grows a
list), so the fuelled function agrees with the unbounded recursion. -/
def collapseWsAux : Nat → List Char → List Char
  | 0, _ => []
  | _ + 1, [] => []
  | fuel + 1, c :: rest =>
    if isWsA c then ' ' :: collapseWsAux fuel (rest.dropWhile isWsA)
    else c :: collapseWsAux fuel rest

/-- `re.sub(r'\s+', ' ', text)`. -/
def collapseWs (l : List Char) : List Char := collapseWsAux l.length l

/-- Scan every start position from the left and return the first successful
match: the semantics of `re.search` given a matcher for one start position
(none of the embedded patterns can match the empty suffix). -/
def searchWith (f : List Char → Option (List Char)) : List Char →
    Option (List Char)
  | [] => none
  | c :: rest =>
    match f (c :: rest) with
    | some cap => some cap
    | none => searchWith f rest

/-- The label-separator class `[:\-\s]` used by several extractor patterns. -/
def sepClass (c : Char) : Bool := c = ':' || c = '-' || isWsA c

/-- Case-insensitive literal match (pattern given in lowercase); returns the
original consumed characters and the rest. -/
def ciPrefixSplit : List Char → List Char → Option (List Char × List Char)
  | [], l => some ([], l)
  | _ :: _, [] => none
  | p :: ps, c :: cs =>
    if lowerAscii c = p then
      (ciPrefixSplit ps cs).map (fun q => (c :: q.1, q.2))
    else none

/-! ### Date pattern (src/main.py line 147)

`date[:\-\s]*([A-Za-z]{3,9}\s+\d{1,2},?\s+\d{4})`, `re.IGNORECASE`.
All the greedy pieces are followed by a disjoint character class, so the only
backtracking the engine can perform is inside the counted classes; a
`[A-Za-z]` run longer than 9, or a `\d` run longer than 2, makes every
alternative fail (the character after the counted piece would again belong to
the class), which the length window checks below encode. -/

def matchDateAt : List Char → Option (List Char)
  | c1 :: c2 :: c3 :: c4 :: rest =>
    if lowerAscii c1 = 'd' ∧ lowerAscii c2 = 'a' ∧ lowerAscii c3 = 't' ∧
        lowerAscii c4 = 'e' then
      let r1 := rest.dropWhile sepClass
      let letters := r1.takeWhile isAsciiAlpha
      let r2 := r1.dropWhile isAsciiAlpha
      if 3 ≤ letters.length ∧ letters.length ≤ 9 then
        let ws1 := r2.takeWhile isWsA
        let r3 := r2.dropWhile isWsA
        if ws1 ≠ [] then
          let digs := r3.takeWhile isDigitA
          let r4 := r3.dropWhile isDigitA
          if 1 ≤ digs.length ∧ digs.length ≤ 2 then
            let comma := match r4 with
              | ',' :: _ => [',']
              | _ => []
            let r5 := match r4 with
              | ',' :: rr => rr
              | _ => r4
            let ws2 := r5.takeWhile isWsA
            let r6 := r5.dropWhile isWsA
            if ws2 ≠ [] then
              let y4 := r6.take 4
              if y4.length = 4 ∧ y4.all isDigitA then
                some (letters ++ ws1 ++ digs ++ comma ++ ws2 ++ y4)
              else none
            else none
          else none
        else none
      else none
    else none
  | _ => none

/-- `re.search` of the date pattern; the result is capture group 1. -/
def dateSearch (l : List Char) : Option (List Char) := searchWith matchDateAt l

/-! ### Time pattern (src/main.py line 148)

`(?:at|time)[:\-\s]*([0-9]{1,2}[:][0-9]{2}\s*(?:AM|PM|IST)?)`, ignorecase. -/

/-- The optional trailing `(?:AM|PM|IST)?` marker (alternatives have pairwise
distinct first letters, so alternation order does not matter). -/
def markerAt : List Char → List Char
  | a :: b :: rest =>
    if (lowerAscii a = 'a' ∨ lowerAscii a = 'p') ∧ lowerAscii b = 'm' then
      [a, b]
    else
      match rest with
      | c :: _ =>
        if lowerAscii a = 'i' ∧ lowerAscii b = 's' ∧ lowerAscii c = 't' then
          [a, b, c]
        else []
      | [] => []
  | _ => []

def matchTimeAt (l : List Char) : Option (List Char) :=
  let afterLabel : Option (List Char) :=
    match l with
    | c1 :: c2 :: rest =>
      if lowerAscii c1 = 'a' ∧ lowerAscii c2 = 't' then some rest
      else
        match rest with
        | c3 :: c4 :: rest2 =>
          if lowerAscii c1 = 't' ∧ lowerAscii c2 = 'i' ∧ lowerAscii c3 = 'm' ∧
              lowerAscii c4 = 'e' then some rest2
          else none
        | _ => none
    | _ => none
  match afterLabel with
  | none => none
  | some rest =>
    let r1 := rest.dropWhile sepClass
    let digs := r1.takeWhile isDigitA
    let r2 := r1.dropWhile isDigitA
    if 1 ≤ digs.length ∧ digs.length ≤ 2 then
      match r2 with
      | ':' :: r3 =>
        let mm := r3.take 2
        if mm.length = 2 ∧ mm.all isDigitA then
          let r4 := r3.drop 2
          let ws := r4.takeWhile isWsA
          let r5 := r4.dropWhile isWsA
          some (digs ++ ':' :: mm ++ ws ++ markerAt r5)
        else none
      | _ => none
    else none

def timeSearch (l : List Char) : Option (List Char) := searchWith matchTimeAt l

/-! ### Dial-in pattern (src/main.py line 149)

`(Dial[\s\-]*in[:\-\s]*[^\n]+|Universal Access[:\-\s]*[^\n]+)`, ignorecase. -/

/-- `[:\-\s]*[^\n]+` with the regex's greedy/backtracking behaviour: take the
maximal separator run; if something follows it, the (necessarily non-newline)
remainder up to the next newline is consumed; otherwise the engine gives back
trailing separators one by one, so the match ends at the last non-newline
character.  Returns the full matched text (separators included). -/
def labelTail (s : List Char) : Option (List Char) :=
  let a := s.takeWhile sepClass
  let r := s.dropWhile sepClass
  if r ≠ [] then some (a ++ r.takeWhile (fun c => c ≠ '\n'))
  else
    let t := (a.reverse.dropWhile (fun c => c = '\n')).reverse
    if t = [] then none else some t

/-- Same backtracking, but the capture group holds only the `[^\n]+` part
(used by the host pattern, whose separators sit outside the group). -/
def captureTail (s : List Char) : Option (List Char) :=
  let r := s.dropWhile sepClass
  if r ≠ [] then some (r.takeWhile (fun c => c ≠ '\n'))
  else
    match s.reverse.dropWhile (fun c => c = '\n') with
    | c :: _ => some [c]
    | [] => none

def matchDialAt (l : List Char) : Option (List Char) :=
  let branch1 : Option (List Char) :=
    match ciPrefixSplit ("dial").data l with
    | some (lit1, r) =>
      let mid := r.takeWhile (fun c => isWsA c || c = '-')
      let r' := r.dropWhile (fun c => isWsA c || c = '-')
      match ciPrefixSplit ("in").data r' with
      | some (lit2, r'') =>
        (labelTail r'').map (fun t => lit1 ++ mid ++ lit2 ++ t)
      | none => none
    | none => none
  match branch1 with
  | some cap => some cap
  | none =>
    match ciPrefixSplit ("universal access").data l with
    | some (lit, r) => (labelTail r).map (fun t => lit ++ t)
    | none => none

def dialSearch (l : List Char) : Option (List Char) := searchWith matchDialAt l

/-! ### Host pattern (src/main.py line 151)

`(?:Hosted\s*by|Moderator|Organised\s*by)[:\-\s]*([^\n]+)`, ignorecase. -/

def matchHostAt (l : List Char) : Option (List Char) :=
  let afterLabel : Option (List Char) :=
    match ciPrefixSplit ("hosted").data l with
    | some (_, r) =>
      let r' := r.dropWhile isWsA
      match ciPrefixSplit ("by").data r' with
      | some (_, r'') => some r''
      | none => none
    | none =>
      match ciPrefixSplit ("moderator").data l with
      | some (_, r) => some r
      | none =>
        match ciPrefixSplit ("organised").data l with
        | some (_, r) =>
          let r' := r.dropWhile isWsA
          match ciPrefixSplit ("by").data r' with
          | some (_, r'') => some r''
          | none => none
        | none => none
  match afterLabel with
  | some r => captureTail r
  | none => none

def hostSearch (l : List Char) : Option (List Char) := searchWith matchHostAt l

/-! ### Registration-link pattern (src/main.py line 150)

`(https?://[^\s]*diamondpass[^\s]*)`, ignorecase.  After `http`, a greedy
optional `s` (backtracking cannot help: `:` never equals `s`), then `://`,
then the maximal non-whitespace run, which must contain `diamondpass`; the
match always extends to the end of that run. -/

def matchRegAt (l : List Char) : Option (List Char) :=
  match ciPrefixSplit ("http").data l with
  | none => none
  | some (h4, r) =>
    let sPart := match r with
      | c :: _ => if lowerAscii c = 's' then [c] else []
      | [] => []
    let r1 := match r with
      | c :: rest => if lowerAscii c = 's' then rest else r
      | [] => r
    match ciPrefixSplit ("://").data r1 with
    | some (c3, r2) =>
      let run := r2.takeWhile (fun c => ¬ isWsA c)
      if containsCI run ("diamondpass").data then some (h4 ++ sPart ++ c3 ++ run)
      else none
    | none => none

def regLinkSearch (l : List Char) : Option (List Char) :=
  searchWith matchRegAt l

/-! ### Contact scans (src/main.py lines 154-155)

`re.findall` semantics: scan start positions from the left; on a match, emit
it and continue right after it (matches never overlap); otherwise advance one
character.  Both findall loops below carry a fuel argument equal to the input
length; every step consumes at least one character, so the fuel never runs
out. -/

/-- The class `[\w\.-]` of the email pattern (`\w` at ASCII granularity:
letters, digits, underscore). -/
def wClass (c : Char) : Bool := isAsciiAlnum c || c = '_'

def emailClass (c : Char) : Bool := wClass c || c = '.' || c = '-'

/-- For `[\w\.-]+\.\w+` applied to the maximal class run `R` after the `@`:
the greedy first piece backtracks from the right, so the engine settles on the
largest index `j ≥ 1` with `R[j] = '.'` and a word character right after. -/
def findLastDotIdx (R : List Char) : Option Nat :=
  ((List.range R.length).reverse).find? (fun j =>
    decide (1 ≤ j) && (R.get? j == some '.') &&
      (((R.get? (j + 1)).map wClass).getD false))

/-- One attempt of `[\w\.-]+@[\w\.-]+\.\w+` anchored at the current position;
returns the matched text and the remaining input. -/
def matchEmailAt (l : List Char) : Option (List Char × List Char) :=
  let loc := l.takeWhile emailClass
  let r := l.dropWhile emailClass
  if loc = [] then none
  else
    match r with
    | '@' :: r2 =>
      let R := r2.takeWhile emailClass
      let after := r2.dropWhile emailClass
      match findLastDotIdx R with
      | some j =>
        let wrun := (R.drop (j + 1)).takeWhile wClass
        some (loc ++ '@' :: R.take j ++ '.' :: wrun,
          (R.drop (j + 1)).drop wrun.length ++ after)
      | none => none
    | _ => none

def emailFindallAux : Nat → List Char → List (List Char)
  | 0, _ => []
  | _ + 1, [] => []
  | fuel + 1, c :: rest =>
    match matchEmailAt (c :: rest) with
    | some (m, r) => m :: emailFindallAux fuel r
    | none => emailFindallAux fuel rest

/-- `re.findall(r'[\w\.-]+@[\w\.-]+\.\w+', text)`. -/
def emailFindall (l : List Char) : List (List Char) :=
  emailFindallAux l.length l

/-- The class `[\d\s\-\(\)]` of the phone pattern. -/
def phoneClass (c : Char) : Bool :=
  isDigitA c || isWsA c || c = '-' || c = '(' || c = ')'

/-- For `\d[\d\s\-\(\)]{7,}\d` applied after the first digit, with `run` the
maximal class run that follows: the greedy counted piece backtracks from the
right, so the final `\d` lands on the largest index `k ≥ 7` of `run` holding a
digit (the character after the maximal run is never a digit). -/
def lastDigitIdx (run : List Char) : Option Nat :=
  ((List.range run.length).reverse).find? (fun k =>
    decide (7 ≤ k) && (((run.get? k).map isDigitA).getD false))

/-- `\d[\d\s\-\(\)]{7,}\d` anchored at the current position. -/
def phoneCore (l : List Char) : Option (List Char × List Char) :=
  match l with
  | [] => none
  | c :: rest =>
    if isDigitA c then
      let run := rest.takeWhile phoneClass
      let after := rest.dropWhile phoneClass
      match lastDigitIdx run with
      | some k => some (c :: run.take (k + 1), run.drop (k + 1) ++ after)
      | none => none
    else none

/-- `\+?\d[\d\s\-\(\)]{7,}\d` anchored at the current position: a leading `+`
is consumed greedily; giving it back cannot help, since `\d` never matches
`+`. -/
def matchPhoneAt (l : List Char) : Option (List Char × List Char) :=
  match l with
  | [] => none
  | c :: rest =>
    if c = '+' then (phoneCore rest).map (fun p => ('+' :: p.1, p.2))
    else phoneCore (c :: rest)

def phoneFindallAux : Nat → List Char → List (List Char)
  | 0, _ => []
  | _ + 1, [] => []
  | fuel + 1, c :: rest =>
    match matchPhoneAt (c :: rest) with
    | some (m, r) => m :: phoneFindallAux fuel r
    | none => phoneFindallAux fuel rest

/-- `re.findall(r'\+?\d[\d\s\-\(\)]{7,}\d', text)`. -/
def phoneFindall (l : List Char) : List (List Char) :=
  phoneFindallAux l.length l

/-! ## Document Field Extractor (src/main.py `parse_pdf_details`, 97-167) -/

/-- The `clean` dictionary shape returned by `parse_pdf_details`.  The
download-exhausted path of the source returns a bare `{}`, which every reader
(`create_calendar_event`) accesses through `.get(key, default)`; observed
through those defaults, `{}` is exactly the all-empty record, so both failure
returns are modelled by `emptyFields`. -/
structure ExtractedFields where
  date : String
  time : String
  dial_in : String
  registration_link : String
  host : String
  contacts : List String
deriving DecidableEq, Repr

def emptyFields : ExtractedFields :=
  { date := "", time := "", dial_in := "", registration_link := "", host := "",
    contacts := [] }

/-- `m.group(1).strip()` when the search succeeded, `''` otherwise. -/
def groupStripped (m : Option (List Char)) : String :=
  match m with
  | some cap => ⟨stripL cap⟩
  | none => ""

/-- `parse_pdf_details`.  The network side is abstracted into the argument:
`none` means every download attempt failed (the `for`/`else` path, source line
136-138), `some text` means the concatenated page text was extracted.  The
function is total — the source catches every exception inside the retry loop
and never raises.  `list(set(contacts + phones))` deduplicates with
unspecified order; `List.dedup` is the order-stable stand-in (membership is
the observable the pipeline relies on). -/
def parse_pdf_details (download : Option String) : ExtractedFields :=
  match download with
  | none => emptyFields
  | some text =>
    if pyStrip text = "" then emptyFields
    else
      let t := collapseWs text.data
      { date := groupStripped (dateSearch t)
        time := groupStripped (timeSearch t)
        dial_in := groupStripped (dialSearch t)
        registration_link := groupStripped (regLinkSearch t)
        host := groupStripped (hostSearch t)
        contacts :=
          ((emailFindall t).map (fun m => (⟨m⟩ : String)) ++
            (phoneFindall t).map (fun m => (⟨m⟩ : String))).dedup }

/-! ## Date-time model

Python naive `datetime` objects are points on a minute grid; the model is the
count of minutes relative to the civil epoch 1970-01-01 00:00 (the exact epoch
constant is irrelevant to the claims).  `timedelta(minutes=30)` is then `+ 30`.
`daysFromCivil` is the standard civil-from/to-days computation (floor
division, correct for all years). -/

def daysFromCivil (y m d : Int) : Int :=
  let y' := y - (if m ≤ 2 then 1 else 0)
  let era := Int.fdiv y' 400
  let yoe := y' - era * 400
  let mp := Int.fmod (m + 9) 12
  let doy := Int.fdiv (153 * mp + 2) 5 + d - 1
  let doe := yoe * 365 + Int.fdiv yoe 4 - Int.fdiv yoe 100 + doy
  era * 146097 + doe - 719468

/-- A naive datetime (to the minute) as an absolute minute count. -/
def mkDateTime (y m d h mi : Nat) : Int :=
  daysFromCivil y m d * 1440 + h * 60 + mi

def isLeap (y : Nat) : Bool :=
  decide (y % 4 = 0 ∧ (y % 100 ≠ 0 ∨ y % 400 = 0))

/-- Month lengths, as validated by the `datetime.datetime` constructor. -/
def daysInMonth (y m : Nat) : Nat :=
  if m = 2 then (if isLeap y then 29 else 28)
  else if m = 4 ∨ m = 6 ∨ m = 9 ∨ m = 11 then 30
  else 31

/-! ### `datetime.strptime(combined, '%d-%b-%Y %I:%M %p')`

Python `_strptime` compiles the format to a regex matched case-insensitively
against the whole string (trailing characters raise).  The numeric directives
are ordered alternations; each is followed by a literal or class disjoint
from digits, so the alternation order below reproduces them exactly:
`%d = 3[01]|[12]\d|0[1-9]|[1-9]| [1-9]`, `%I = 1[0-2]|0[1-9]|[1-9]`,
`%M = [0-5]\d|\d`, `%Y = \d{4}`, `%b` the three-letter month abbreviations,
`%p` AM/PM; literal whitespace in the format becomes `\s+`.  The
`datetime` constructor then validates the day against the month length and
rejects year 0. -/

def parseDay : List Char → Option (Nat × List Char)
  | [] => none
  | [c1] => if 49 ≤ c1.toNat ∧ c1.toNat ≤ 57 then some (digitVal c1, []) else none
  | c1 :: c2 :: rest =>
    if c1 = '3' ∧ (c2 = '0' ∨ c2 = '1') then some (30 + digitVal c2, rest)
    else if (c1 = '1' ∨ c1 = '2') ∧ isDigitA c2 then
      some (10 * digitVal c1 + digitVal c2, rest)
    else if c1 = '0' ∧ (49 ≤ c2.toNat ∧ c2.toNat ≤ 57) then
      some (digitVal c2, rest)
    else if 49 ≤ c1.toNat ∧ c1.toNat ≤ 57 then
      some (digitVal c1, c2 :: rest)
    else if c1 = ' ' ∧ (49 ≤ c2.toNat ∧ c2.toNat ≤ 57) then
      some (digitVal c2, rest)
    else none

def parseLit (c : Char) : List Char → Option (List Char)
  | x :: rest => if x = c then some rest else none
  | [] => none

/-- `\s+`: at least one whitespace character, consumed greedily. -/
def parseWs1 : List Char → Option (List Char)
  | c :: rest => if isWsA c then some (rest.dropWhile isWsA) else none
  | [] => none

/-- Exactly `n` digits, accumulating their value. -/
def parseDigitsExact : Nat → Nat → List Char → Option (Nat × List Char)
  | 0, acc, l => some (acc, l)
  | n + 1, acc, c :: rest =>
    if isDigitA c then parseDigitsExact n (acc * 10 + digitVal c) rest else none
  | _ + 1, _, [] => none

def monthAbbrevNum (c1 c2 c3 : Char) : Option Nat :=
  let a := lowerAscii c1
  let b := lowerAscii c2
  let c := lowerAscii c3
  if a = 'j' ∧ b = 'a' ∧ c = 'n' then some 1
  else if a = 'f' ∧ b = 'e' ∧ c = 'b' then some 2
  else if a = 'm' ∧ b = 'a' ∧ c = 'r' then some 3
  else if a = 'a' ∧ b = 'p' ∧ c = 'r' then some 4
  else if a = 'm' ∧ b = 'a' ∧ c = 'y' then some 5
  else if a = 'j' ∧ b = 'u' ∧ c = 'n' then some 6
  else if a = 'j' ∧ b = 'u' ∧ c = 'l' then some 7
  else if a = 'a' ∧ b = 'u' ∧ c = 'g' then some 8
  else if a = 's' ∧ b = 'e' ∧ c = 'p' then some 9
  else if a = 'o' ∧ b = 'c' ∧ c = 't' then some 10
  else if a = 'n' ∧ b = 'o' ∧ c = 'v' then some 11
  else if a = 'd' ∧ b = 'e' ∧ c = 'c' then some 12
  else none

def parseMonthAbbrev : List Char → Option (Nat × List Char)
  | c1 :: c2 :: c3 :: rest => (monthAbbrevNum c1 c2 c3).map (fun m => (m, rest))
  | _ => none

def parseHourI : List Char → Option (Nat × List Char)
  | [] => none
  | [c1] => if 49 ≤ c1.toNat ∧ c1.toNat ≤ 57 then some (digitVal c1, []) else none
  | c1 :: c2 :: rest =>
    if c1 = '1' ∧ (48 ≤ c2.toNat ∧ c2.toNat ≤ 50) then
      some (10 + digitVal c2, rest)
    else if c1 = '0' ∧ (49 ≤ c2.toNat ∧ c2.toNat ≤ 57) then
      some (digitVal c2, rest)
    else if 49 ≤ c1.toNat ∧ c1.toNat ≤ 57 then some (digitVal c1, c2 :: rest)
    else none

def parseMin : List Char → Option (Nat × List Char)
  | [] => none
  | [c1] => if isDigitA c1 then some (digitVal c1, []) else none
  | c1 :: c2 :: rest =>
    if (48 ≤ c1.toNat ∧ c1.toNat ≤ 53) ∧ isDigitA c2 then
      some (10 * digitVal c1 + digitVal c2, rest)
    else if isDigitA c1 then some (digitVal c1, c2 :: rest)
    else none

/-- `%p`: `AM` or `PM`, case-insensitively; `true` means PM. -/
def parseAmPm : List Char → Option (Bool × List Char)
  | c1 :: c2 :: rest =>
    if lowerAscii c2 = 'm' then
      if lowerAscii c1 = 'a' then some (false, rest)
      else if lowerAscii c1 = 'p' then some (true, rest)
      else none
    else none
  | _ => none

/-- `datetime.strptime(s, '%d-%b-%Y %I:%M %p')`, returning `none` where the
source raises `ValueError` (caught at the call site). -/
def strptimeFmt (s : String) : Option Int :=
  match parseDay s.data with
  | none => none
  | some (d, l1) => do
    let l2 ← parseLit '-' l1
    let (m, l3) ← parseMonthAbbrev l2
    let l4 ← parseLit '-' l3
    let (y, l5) ← parseDigitsExact 4 0 l4
    let l6 ← parseWs1 l5
    let (hI, l7) ← parseHourI l6
    let l8 ← parseLit ':' l7
    let (mi, l9) ← parseMin l8
    let l10 ← parseWs1 l9
    let (pm, l11) ← parseAmPm l10
    if l11 = [] ∧ 1 ≤ y ∧ d ≤ daysInMonth y m then
      let h24 := if pm then (if hI = 12 then 12 else hI + 12)
        else (if hI = 12 then 0 else hI)
      some (mkDateTime y m d h24 mi)
    else none

/-! ## Event Composer (src/main.py `create_calendar_event`, 170-211) -/

/-- Fixed automation tag, src/main.py line 19. -/
def EVENT_TAG : String := "[AUTO:NSE_RSS_SCRIPT]"

/-- One of the `start` / `end` objects of the event body. -/
structure EventTime where
  dateTime : Int
  timeZone : String
deriving DecidableEq, Repr

/-- The event body built by `create_calendar_event` (`start`/`end` keys are
named `startTime`/`endTime` here because `end` is reserved in Lean). -/
structure CalendarEvent where
  summary : String
  description : String
  startTime : EventTime
  endTime : EventTime
  location : String
  attendees : List String
deriving DecidableEq, Repr

/-- `create_calendar_event` up to the `service...insert` call: the composed
event body.  `now` stands for `datetime.datetime.now()` at composition time.
The `guest_email` parameter is accepted (mirroring the source signature) but —
exactly as in the source — never used: line 205 hard-codes `'attendees': []`
with the comment `# avoid 403`. -/
def create_calendar_event (company : String) (entry : Entry)
    (details : ExtractedFields) (guest_email : String) (now : Int) :
    CalendarEvent :=
  let pdf_link := entry.link.getD ""
  let dt := details.date
  let tm := details.time
  let dial_in := details.dial_in
  let reg_link := details.registration_link
  let host := details.host
  let contacts := String.intercalate ", " details.contacts
  let summary := company ++ " Analyst/Concall"
  let description :=
    "Announcement link (PDF): " ++ pdf_link ++ "\n" ++
    "Date: " ++ dt ++ "\nTime: " ++ tm ++ "\nDial-in info: " ++ dial_in ++
    "\n" ++ "Registration link: " ++ reg_link ++ "\nHost: " ++ host ++ "\n" ++
    "Contacts: " ++ contacts ++ "\n" ++ EVENT_TAG
  let start_dt : Int :=
    if dt ≠ "" ∧ tm ≠ "" then
      match strptimeFmt (pyStrip dt ++ " " ++ pyStrip tm) with
      | some v => v
      | none => now
    else now
  let end_dt : Int := start_dt + 30
  { summary := summary
    description := description
    startTime := { dateTime := start_dt, timeZone := "Asia/Kolkata" }
    endTime := { dateTime := end_dt, timeZone := "Asia/Kolkata" }
    location := "Virtual"
    attendees := [] }

/-! ## Fixtures for closed witness statements -/

def entry₀ : Entry := { title := none, summary := none, link := none }

def entryNoKw : Entry :=
  { title := some "Acme board update", summary := some "routine filing",
    link := none }

def entryConcall : Entry :=
  { title := some "Acme", summary := some "call", link := none }

def detConcrete : ExtractedFields :=
  { emptyFields with date := "15-Mar-2024", time := "10:30 AM" }

/-- A document text whose date the extractor's pattern does capture. -/
def txtDated : String := "Date: March 15, 2024 Time: 10:30 AM"

/-! # Theorems

Helper lemmas first, then one theorem per claim (with closed witnesses for
the theorems that carry hypotheses). -/

/-! ## Character-level lemmas -/

theorem toNat_ofNat_shift :
    ∀ n ∈ Finset.Icc (65 : ℕ) 90, (Char.ofNat (n + 32)).toNat = n + 32 := by
  decide

theorem lowerAscii_toNat_of_alnum {c : Char} (h : isAsciiAlnum c = true) :
    (48 ≤ (lowerAscii c).toNat ∧ (lowerAscii c).toNat ≤ 57) ∨
      (97 ≤ (lowerAscii c).toNat ∧ (lowerAscii c).toNat ≤ 122) := by
  have hc : (48 ≤ c.toNat ∧ c.toNat ≤ 57) ∨ (65 ≤ c.toNat ∧ c.toNat ≤ 90) ∨
      (97 ≤ c.toNat ∧ c.toNat ≤ 122) := by simpa [isAsciiAlnum] using h
  unfold lowerAscii
  by_cases hup : 65 ≤ c.toNat ∧ c.toNat ≤ 90
  · rw [if_pos hup]
    rw [toNat_ofNat_shift c.toNat (Finset.mem_Icc.mpr hup)]
    omega
  · rw [if_neg hup]
    omega

theorem isAsciiAlnum_lowerAscii {c : Char} (h : isAsciiAlnum c = true) :
    isAsciiAlnum (lowerAscii c) = true := by
  have := lowerAscii_toNat_of_alnum h
  simp only [isAsciiAlnum, decide_eq_true_eq]
  omega

theorem lowerAscii_lowerAscii {c : Char} (h : isAsciiAlnum c = true) :
    lowerAscii (lowerAscii c) = lowerAscii c := by
  have := lowerAscii_toNat_of_alnum h
  conv_lhs => rw [lowerAscii]
  rw [if_neg (by omega)]

/-! ## Lemmas about the fuzzy score -/

theorem lcsLen_self (l : List Char) : lcsLen l l = l.length := by
  induction l with
  | nil => rw [lcsLen]; rfl
  | cons a as ih => rw [lcsLen]; simp [ih]

theorem ratioOf_self (l : List Char) : ratioOf l l = 100 := by
  by_cases h : l.length = 0
  · simp [ratioOf, h]
  · rw [ratioOf, if_neg (by omega), lcsLen_self]
    have hpos : (0 : ℚ) < (l.length : ℚ) := by
      exact_mod_cast Nat.pos_of_ne_zero h
    rw [div_eq_iff (by linarith)]
    ring

theorem partRatioOf_self (l : List Char) : partRatioOf l l = 100 := by
  unfold partRatioOf
  simp only [le_refl, if_true, Nat.sub_self, List.range_succ, List.range_zero,
    List.nil_append, List.map_cons, List.map_nil, List.drop_zero,
    List.take_length, List.foldr_cons, List.foldr_nil, ratioOf_self]
  exact max_eq_left (by norm_num)

/-! ## Claim C9 -/

/-- C9: `normalize` is a total pure function: for every input (an absent
input standing for the empty string), every character of the output is a
lowercase ASCII letter or an ASCII digit, and `normalize` is idempotent. -/
theorem normalize_total_lowercase_idempotent (t : Option String) :
    (∀ c ∈ (normalize t).data,
      (48 ≤ c.toNat ∧ c.toNat ≤ 57) ∨ (97 ≤ c.toNat ∧ c.toNat ≤ 122)) ∧
    normalize (some (normalize t)) = normalize t := by
  constructor
  · intro c hc
    simp only [normalize, List.mem_map, List.mem_filter] at hc
    obtain ⟨c', ⟨-, hp⟩, rfl⟩ := hc
    exact lowerAscii_toNat_of_alnum hp
  · have hcomp : ∀ c' ∈ (t.getD "").data.filter isAsciiAlnum,
        (isAsciiAlnum ∘ lowerAscii) c' = true := by
      intro c' hc'
      exact isAsciiAlnum_lowerAscii (List.mem_filter.mp hc').2
    have hrw : normalize (some (normalize t)) = String.mk
        (((((t.getD "").data.filter isAsciiAlnum).map lowerAscii).filter
          isAsciiAlnum).map lowerAscii) := rfl
    rw [hrw, normalize]
    congr 1
    rw [List.filter_map, List.filter_eq_self.mpr hcomp, List.map_map]
    exact List.map_congr_left fun c' hc' =>
      lowerAscii_lowerAscii (List.mem_filter.mp hc').2

/-! ## Claims C1-C4 (the Matcher) -/

/-- C1: an entry whose search corpus (normalized title ++ " " ++ normalized
summary) contains no allowed keyword is excluded from the matcher's results
for every watched-name list and every threshold — in particular even when
some watched name scores a perfect 100 against the title. -/
theorem matcher_excludes_without_keyword (th : ℚ) (entries : List Entry)
    (companies : List String) (e : Entry) (h : key_hit e = false) :
    e ∉ filter_entriesT th entries companies := by
  intro hmem
  obtain ⟨-, hany⟩ := List.mem_filter.mp hmem
  rw [List.any_eq_true] at hany
  obtain ⟨c, -, hc⟩ := hany
  rw [companyMatch, h, Bool.and_false] at hc
  exact Bool.false_ne_true hc

theorem matcher_excludes_without_keyword_witness :
    entryNoKw ∉ filter_entriesT 98 [entryNoKw] ["Acme board update"] :=
  matcher_excludes_without_keyword 98 [entryNoKw] ["Acme board update"]
    entryNoKw (by decide)

/-- C2: for every entry and watched name, the similarity score is the fuzzy
partial ratio of the normalized name against the normalized title only — the
summary never influences it — while the keyword gate reads the corpus formed
from title and summary; the per-pair decision combines exactly these two. -/
theorem matcher_similarity_title_only (company t s₁ s₂ : String)
    (l : Option String) (th : ℚ) :
    companyScore company ⟨some t, some s₁, l⟩ =
        companyScore company ⟨some t, some s₂, l⟩ ∧
    companyScore company ⟨some t, some s₁, l⟩ =
        partRatioOf (normalize (some company)).data (normalize (some t)).data ∧
    entryContent ⟨some t, some s₁, l⟩ =
        normalize (some t) ++ " " ++ normalize (some s₁) ∧
    companyMatch th company ⟨some t, some s₁, l⟩ =
      (decide (th ≤ partRatioOf (normalize (some company)).data
          (normalize (some t)).data) &&
        key_hit ⟨some t, some s₁, l⟩) :=
  ⟨rfl, rfl, rfl, rfl⟩

/-- C3: an entry whose normalized title equals a normalized watched name and
whose corpus passes the keyword gate is included for every threshold up to
and including 100 (the self partial-ratio is 100). -/
theorem matcher_includes_exact_title (th : ℚ) (hth : th ≤ 100)
    (entries : List Entry) (companies : List String) (e : Entry) (c : String)
    (hc : c ∈ companies) (he : e ∈ entries)
    (ht : normalize e.title = normalize (some c)) (hk : key_hit e = true) :
    e ∈ filter_entriesT th entries companies := by
  refine List.mem_filter.mpr ⟨he, ?_⟩
  rw [List.any_eq_true]
  refine ⟨c, hc, ?_⟩
  rw [companyMatch, companyScore, ht, partRatioOf_self, hk, Bool.and_true]
  exact decide_eq_true hth

theorem matcher_includes_exact_title_witness :
    entryConcall ∈ filter_entriesT 100 [entryConcall] ["acme"] :=
  matcher_includes_exact_title 100 (by norm_num) [entryConcall] ["acme"]
    entryConcall "acme" (by decide) (by decide) (by decide) (by decide)

/-- C4: each input occurrence of an entry yields at most one occurrence in
the matcher's output: the inner name loop `break`s at the first match, so the
output is a sub-filter of the input and per-entry multiplicity never grows —
an entry matching several names is emitted once, not once per name. -/
theorem matcher_no_duplicate_per_entry (th : ℚ) (entries : List Entry)
    (companies : List String) (e : Entry) :
    (filter_entriesT th entries companies).count e ≤ entries.count e :=
  List.Sublist.count_le (List.filter_sublist _) e

/-! ## Claim C5 (extractor failure paths) -/

/-- C5: the document field extractor never raises (it is a total function of
the downloaded text) and on any failure — every download attempt exhausted
(`none`), or a document whose text strips to empty — it returns the all-empty
`ExtractedFields`: every text field is `""` and the contact set is empty. -/
theorem extractor_failure_all_empty :
    parse_pdf_details none = emptyFields ∧
    ∀ text : String, pyStrip text = "" →
      parse_pdf_details (some text) = emptyFields := by
  refine ⟨rfl, fun text h => ?_⟩
  simp [parse_pdf_details, h]

theorem extractor_failure_all_empty_witness :
    parse_pdf_details (some ("  ")) = emptyFields :=
  extractor_failure_all_empty.2 ("  ") (by decide)

/-! ## Claim C6 (composer start/end times) -/

/-- C6: with extracted date `"15-Mar-2024"` and time `"10:30 AM"` the start
time parses to 2024-03-15T10:30 and carries the configured `Asia/Kolkata`
timezone; whenever the combined date/time string fails to parse (including a
missing field, which also falls into the `else` branch), the start time is
the composition-time clock `now`; and in every case the end time is exactly
30 minutes after the start time. -/
theorem composer_start_end_times (company : String) (entry : Entry)
    (det : ExtractedFields) (guest : String) (now : Int) :
    (det.date = "15-Mar-2024" → det.time = "10:30 AM" →
      (create_calendar_event company entry det guest now).startTime.dateTime =
          mkDateTime 2024 3 15 10 30 ∧
      (create_calendar_event company entry det guest now).startTime.timeZone =
          "Asia/Kolkata") ∧
    (strptimeFmt (pyStrip det.date ++ " " ++ pyStrip det.time) = none →
      (create_calendar_event company entry det guest now).startTime.dateTime =
        now) ∧
    (create_calendar_event company entry det guest now).endTime.dateTime =
      (create_calendar_event company entry det guest now).startTime.dateTime +
        30 := by
  refine ⟨?_, ?_, ?_⟩
  · intro h1 h2
    obtain ⟨d, tmm, a, b, ho, co⟩ := det
    replace h1 : d = "15-Mar-2024" := h1
    replace h2 : tmm = "10:30 AM" := h2
    subst h1
    subst h2
    exact ⟨rfl, rfl⟩
  · intro h
    by_cases hc : det.date ≠ "" ∧ det.time ≠ ""
    · simp [create_calendar_event, hc, h]
    · simp [create_calendar_event, hc]
  · rfl

theorem composer_start_end_times_witness :
    (create_calendar_event ("Acme") entry₀ detConcrete ("") 5).startTime.dateTime
        = mkDateTime 2024 3 15 10 30 ∧
    (create_calendar_event ("Acme") entry₀ emptyFields ("") 5).startTime.dateTime
        = 5 :=
  ⟨((composer_start_end_times ("Acme") entry₀ detConcrete ("") 5).1 rfl rfl).1,
   (composer_start_end_times ("Acme") entry₀ emptyFields ("") 5).2.1
     (by decide)⟩

/-! ## Claim C7 (attendees)

The claim says a configured guest email becomes the single attendee of the
composed event.  The source contradicts it: `create_calendar_event` receives
`guest_email` but line 205 hard-codes `'attendees': []` (comment: avoid 403),
so the attendee list is empty even when a guest email is configured. -/

/-- C7 counterexample: with the nonempty configured guest email
`guest@example.com` the composed event's attendee list is `[]`, not the
single-element list the claim requires. -/
theorem composer_attendees_counterexample :
    ("guest@example.com" : String) ≠ "" ∧
    (create_calendar_event ("Acme") entry₀ emptyFields ("guest@example.com")
      0).attendees = [] ∧
    (create_calendar_event ("Acme") entry₀ emptyFields ("guest@example.com")
      0).attendees ≠ ["guest@example.com"] :=
  ⟨by decide, rfl, by decide⟩

/-- C7 amended: the attendee list of every composed event is empty, whatever
guest email is configured — the guest-email configuration is read and passed
to the composer but deliberately unused (`# avoid 403`). -/
theorem composer_attendees_always_empty (company : String) (entry : Entry)
    (details : ExtractedFields) (guest_email : String) (now : Int) :
    (create_calendar_event company entry details guest_email now).attendees =
      [] := rfl

/-! ## List lemmas shared by the C8 and C10 developments -/

theorem takeWhile_append_of_all {p : Char → Bool} (a : List Char) (x : Char)
    (b : List Char) :
    (∀ c ∈ a, p c = true) → p x = false →
    (a ++ x :: b).takeWhile p = a ∧ (a ++ x :: b).dropWhile p = x :: b := by
  induction a with
  | nil =>
    intro _ hx
    simp [List.takeWhile_cons, List.dropWhile_cons, hx]
  | cons c cs ih =>
    intro ha hx
    have hc : p c = true := ha c (List.mem_cons_self c cs)
    have ih' := ih (fun d hd => ha d (List.mem_cons_of_mem c hd)) hx
    simp [List.takeWhile_cons, List.dropWhile_cons, hc, ih'.1, ih'.2]

theorem range_reverse_succ (n : Nat) :
    (List.range (n + 1)).reverse = n :: (List.range n).reverse := by
  rw [List.range_succ, List.reverse_append]
  rfl

theorem takeWhile_eq_cons_head {p : Char → Bool} {l : List Char} {c : Char}
    {cs : List Char} (h : l.takeWhile p = c :: cs) : p c = true := by
  cases l with
  | nil => simp at h
  | cons a as =>
    rw [List.takeWhile_cons] at h
    by_cases hpa : p a = true
    · rw [if_pos hpa] at h
      injection h with h1 _
      exact h1 ▸ hpa
    · rw [if_neg hpa] at h
      exact absurd h (by simp)

theorem dropWhile_append_single {p : Char → Bool} (xs : List Char) {c : Char}
    (h : p c = false) :
    (xs ++ [c]).dropWhile p = xs.dropWhile p ++ [c] := by
  induction xs with
  | nil => simp [List.dropWhile_cons, h]
  | cons a as ih =>
    by_cases hpa : p a = true
    · simp [List.dropWhile_cons, hpa, ih]
    · simp [List.dropWhile_cons, hpa]

theorem stripL_cons_of_head {c : Char} (cs : List Char) (h : isWsA c = false) :
    ∃ t, stripL (c :: cs) = c :: t := by
  unfold stripL
  rw [List.dropWhile_cons, if_neg (by simp [h]), List.reverse_cons,
    dropWhile_append_single _ h, List.reverse_append]
  exact ⟨(cs.reverse.dropWhile isWsA).reverse, rfl⟩

/-! ## C8 lemmas: the phone scan on an isolated digit run -/

theorem lastDigitIdx_all_digits {rt : List Char} {n : Nat}
    (hn : rt.length = n + 1) (h7 : 7 ≤ n)
    (h : ∀ c ∈ rt, isDigitA c = true) : lastDigitIdx rt = some n := by
  have hlt : n < rt.length := by omega
  have hpred : (decide (7 ≤ n) &&
      (((rt.get? n).map isDigitA).getD false)) = true := by
    rw [List.get?_eq_get hlt]
    simp only [Option.map_some', Option.getD_some, Bool.and_eq_true,
      decide_eq_true_eq]
    exact ⟨h7, h _ (List.get_mem rt n hlt)⟩
  unfold lastDigitIdx
  rw [hn, range_reverse_succ]
  exact List.find?_cons_of_pos _ hpred

theorem phoneCore_digit_run {rh : Char} {rt : List Char} {n : Nat} (x : Char)
    (b : List Char) (hrh : isDigitA rh = true)
    (hrt : ∀ c ∈ rt, isDigitA c = true) (hx : phoneClass x = false)
    (hn : rt.length = n + 1) (h7 : 7 ≤ n) :
    phoneCore (rh :: (rt ++ x :: b)) = some (rh :: rt, x :: b) := by
  have hcls : ∀ c ∈ rt, phoneClass c = true := by
    intro c hc
    simp [phoneClass, hrt c hc]
  have htk := takeWhile_append_of_all rt x b hcls hx
  rw [phoneCore, if_pos hrh]
  simp only [htk.1, htk.2]
  rw [lastDigitIdx_all_digits hn h7 hrt]
  show some (rh :: List.take (n + 1) rt, List.drop (n + 1) rt ++ x :: b) =
    some (rh :: rt, x :: b)
  rw [← hn, List.take_length, List.drop_length, List.nil_append]

theorem matchPhoneAt_digit_run {rh : Char} {rt : List Char} {n : Nat}
    (x : Char) (b : List Char) (hrh : isDigitA rh = true)
    (hrt : ∀ c ∈ rt, isDigitA c = true) (hx : phoneClass x = false)
    (hn : rt.length = n + 1) (h7 : 7 ≤ n) :
    matchPhoneAt (rh :: (rt ++ x :: b)) = some (rh :: rt, x :: b) := by
  rw [matchPhoneAt, if_neg]
  · exact phoneCore_digit_run x b hrh hrt hx hn h7
  · intro heq
    have : rh.toNat = 43 := by rw [heq]; rfl
    have hd : 48 ≤ rh.toNat ∧ rh.toNat ≤ 57 := by
      simpa [isDigitA] using hrh
    omega

/-! ## Claim C8 (phone scan)

The claim says every contiguous run of at least 7 digits is harvested.  The
pattern `\+?\d[\d\s\-\(\)]{7,}\d` needs a leading digit, at least 7 middle
characters and a final digit — at least 9 characters in total — so a bare
7-digit (or 8-digit) run matches nothing. -/

/-- C8 counterexample: in the text `x1234567x` the substring `1234567` is a
contiguous run of exactly 7 digits, yet the phone scan finds nothing and the
extracted contact set is empty. -/
theorem phone_scan_counterexample :
    containsSub ("x1234567x").data ("1234567").data = true ∧
    ("1234567").data.length = 7 ∧
    (∀ c ∈ ("1234567").data, isDigitA c = true) ∧
    phoneFindall ("x1234567x").data = [] ∧
    (parse_pdf_details (some ("x1234567x"))).contacts = [] :=
  ⟨by decide, by decide, by decide, by decide, by decide⟩

/-- C8 amended: the phone scan matches sequences of an optional `+`, a digit,
at least seven characters drawn from digits/whitespace/hyphens/parentheses,
and a final digit — hence at least 9 characters, so a bare run of 7 or 8
digits is never matched.  An isolated contiguous run of at least 9 digits is
matched whole, and every string the phone scan produces is harvested into the
extracted contact set. -/
theorem phone_scan_nine_digit_runs (r : List Char)
    (hr : ∀ c ∈ r, isDigitA c = true) (hl : 9 ≤ r.length) :
    phoneFindall ('x' :: r ++ ['x']) = [r] ∧
    ∀ (text : String) (p : List Char), pyStrip text ≠ "" →
      p ∈ phoneFindall (collapseWs text.data) →
      (⟨p⟩ : String) ∈ (parse_pdf_details (some text)).contacts := by
  constructor
  · obtain ⟨rh, rt, rfl⟩ : ∃ rh rt, r = rh :: rt := by
      cases r with
      | nil => simp at hl
      | cons a as => exact ⟨a, as, rfl⟩
    have hrh : isDigitA rh = true := hr rh (List.mem_cons_self rh rt)
    have hrt : ∀ c ∈ rt, isDigitA c = true := fun c hc =>
      hr c (List.mem_cons_of_mem rh hc)
    obtain ⟨n, hn⟩ : ∃ n, rt.length = n + 1 := by
      refine ⟨rt.length - 1, ?_⟩
      simp only [List.length_cons] at hl
      omega
    have h7 : 7 ≤ n := by
      simp only [List.length_cons] at hl
      omega
    have hxcls : phoneClass 'x' = false := by decide
    have hm2 := matchPhoneAt_digit_run 'x' [] hrh hrt hxcls hn h7
    have hlen : ('x' :: (rh :: rt) ++ ['x'] : List Char).length = n + 4 := by
      simp [hn]
    have hm1 : matchPhoneAt ('x' :: rh :: (rt ++ ['x'])) = none := by
      rw [matchPhoneAt, if_neg (by decide), phoneCore, if_neg (by decide)]
    have hm3 : matchPhoneAt (['x'] : List Char) = none := by decide
    show phoneFindallAux (('x' :: (rh :: rt) ++ ['x']).length) _ = _
    rw [hlen]
    simp only [List.append_eq, List.cons_append, List.nil_append,
      phoneFindallAux, hm1, hm2, hm3]
  · intro text p hstrip hp
    have hc : (parse_pdf_details (some text)).contacts =
        ((emailFindall (collapseWs text.data)).map (fun m => (⟨m⟩ : String)) ++
          (phoneFindall (collapseWs text.data)).map
            (fun m => (⟨m⟩ : String))).dedup := by
      simp [parse_pdf_details, hstrip]
    rw [hc]
    exact List.mem_dedup.mpr
      (List.mem_append_right _ (List.mem_map.mpr ⟨p, hp, rfl⟩))

theorem phone_scan_nine_digit_runs_witness :
    phoneFindall ('x' :: ("123456789").data ++ ['x']) = [("123456789").data] ∧
    (⟨("123456789").data⟩ : String) ∈
      (parse_pdf_details (some ("x123456789x"))).contacts :=
  ⟨(phone_scan_nine_digit_runs (("123456789").data) (by decide) (by decide)).1,
   (phone_scan_nine_digit_runs (("123456789").data) (by decide) (by decide)).2
     ("x123456789x") (("123456789").data) (by decide) (by decide)⟩

/-! ## C10 lemmas: every captured date starts with a letter and never parses -/

theorem alpha_toNat {c : Char} (h : isAsciiAlpha c = true) :
    (65 ≤ c.toNat ∧ c.toNat ≤ 90) ∨ (97 ≤ c.toNat ∧ c.toNat ≤ 122) := by
  simpa [isAsciiAlpha] using h

theorem alpha_not_ws {c : Char} (h : isAsciiAlpha c = true) :
    isWsA c = false := by
  have := alpha_toNat h
  simp only [isWsA, decide_eq_false_iff_not]
  omega

theorem matchDateAt_head_alpha {l cap : List Char}
    (h : matchDateAt l = some cap) :
    ∃ c cs, cap = c :: cs ∧ isAsciiAlpha c = true := by
  rcases l with _ | ⟨c1, _ | ⟨c2, _ | ⟨c3, _ | ⟨c4, rest⟩⟩⟩⟩ <;>
    simp only [matchDateAt] at h
  all_goals try exact Option.noConfusion h
  split_ifs at h with h1 h2 h3 h4 h5 h6
  rw [Option.some.injEq] at h
  rcases hLet : ((rest.dropWhile sepClass).takeWhile isAsciiAlpha) with
    _ | ⟨c, cs'⟩
  · rw [hLet] at h2
    simp at h2
  · have halpha := takeWhile_eq_cons_head hLet
    rw [hLet] at h
    rw [← h]
    simp only [List.cons_append, List.append_assoc]
    exact ⟨c, _, rfl, halpha⟩

theorem dateSearch_head_alpha {l cap : List Char}
    (h : dateSearch l = some cap) :
    ∃ c cs, cap = c :: cs ∧ isAsciiAlpha c = true := by
  unfold dateSearch at h
  induction l with
  | nil => simp [searchWith] at h
  | cons a as ih =>
    rw [searchWith] at h
    cases hm : matchDateAt (a :: as) with
    | some cap' =>
      rw [hm] at h
      rw [Option.some.injEq] at h
      exact h ▸ matchDateAt_head_alpha hm
    | none =>
      rw [hm] at h
      exact ih h

theorem parseDay_alpha_none {c : Char} (l : List Char)
    (h : isAsciiAlpha c = true) : parseDay (c :: l) = none := by
  have hge : 65 ≤ c.toNat := by
    rcases alpha_toNat h with ⟨h1, -⟩ | ⟨h1, -⟩ <;> omega
  have h3 : c ≠ '3' := fun he => by
    have hv : c.toNat = 51 := by rw [he]; rfl
    omega
  have he1 : c ≠ '1' := fun he => by
    have hv : c.toNat = 49 := by rw [he]; rfl
    omega
  have he2 : c ≠ '2' := fun he => by
    have hv : c.toNat = 50 := by rw [he]; rfl
    omega
  have he0 : c ≠ '0' := fun he => by
    have hv : c.toNat = 48 := by rw [he]; rfl
    omega
  have hsp : c ≠ ' ' := fun he => by
    have hv : c.toNat = 32 := by rw [he]; rfl
    omega
  cases l with
  | nil =>
    rw [parseDay, if_neg (by omega)]
  | cons c2 rest =>
    rw [parseDay, if_neg (fun hh => h3 hh.1),
      if_neg (fun hh => hh.1.elim he1 he2), if_neg (fun hh => he0 hh.1),
      if_neg (by omega), if_neg (fun hh => hsp hh.1)]

theorem strptimeFmt_none_of_parseDay {s : String}
    (h : parseDay s.data = none) : strptimeFmt s = none := by
  unfold strptimeFmt
  rw [h]

theorem strData_append (a b : String) : (a ++ b).data = a.data ++ b.data := rfl

/-! ## Claim C10 -/

/-- C10: every date string the extractor's date pattern captures starts with
an alphabetic month name (`Month D, YYYY` shape), which the composer's fixed
`'%d-%b-%Y %I:%M %p'` format can never parse (`%d` wants a digit first), so
whenever the extractor produced a nonempty date field, the composed event's
start time is the fallback clock `now` — never the announced meeting time. -/
theorem extractor_date_never_parses (text : String) (company : String)
    (entry : Entry) (guest : String) (now : Int)
    (h : (parse_pdf_details (some text)).date ≠ "") :
    (create_calendar_event company entry (parse_pdf_details (some text)) guest
      now).startTime.dateTime = now := by
  by_cases hempty : pyStrip text = ""
  · exact absurd (by simp [parse_pdf_details, hempty, emptyFields]) h
  · have hdate : (parse_pdf_details (some text)).date =
        groupStripped (dateSearch (collapseWs text.data)) := by
      simp [parse_pdf_details, hempty]
    cases hsearch : dateSearch (collapseWs text.data) with
    | none =>
      rw [hdate, hsearch] at h
      exact absurd rfl h
    | some cap =>
      obtain ⟨c, cs, rfl, halpha⟩ := dateSearch_head_alpha hsearch
      have hws := alpha_not_ws halpha
      obtain ⟨t1, ht1⟩ := stripL_cons_of_head cs hws
      have hD : (parse_pdf_details (some text)).date = ⟨c :: t1⟩ := by
        rw [hdate, hsearch]
        show (⟨stripL (c :: cs)⟩ : String) = _
        rw [ht1]
      obtain ⟨t2, ht2⟩ := stripL_cons_of_head t1 hws
      have hparse : strptimeFmt
          (pyStrip (parse_pdf_details (some text)).date ++ " " ++
            pyStrip (parse_pdf_details (some text)).time) = none := by
        apply strptimeFmt_none_of_parseDay
        have hdata : (pyStrip (parse_pdf_details (some text)).date ++ " " ++
            pyStrip (parse_pdf_details (some text)).time).data =
            c :: (t2 ++ ' ' ::
              (pyStrip (parse_pdf_details (some text)).time).data) := by
          rw [hD]
          show ((⟨stripL (c :: t1)⟩ : String) ++ " " ++ _).data = _
          rw [ht2]
          simp [strData_append]
        rw [hdata]
        exact parseDay_alpha_none _ halpha
      by_cases hcond : (parse_pdf_details (some text)).date ≠ "" ∧
          (parse_pdf_details (some text)).time ≠ ""
      · simp [create_calendar_event, hcond, hparse]
      · simp [create_calendar_event, hcond]

theorem extractor_date_never_parses_witness :
    (create_calendar_event ("A") entry₀ (parse_pdf_details (some txtDated))
      ("") 7).startTime.dateTime = 7 :=
  extractor_date_never_parses txtDated ("A") entry₀ ("") 7 (by decide)

end NseSync
